import Mathlib

/-!
# Verification of `predict_spring.py`

A shallow embedding of the food-classification CLI script `predict_spring.py`.

The script is a single linear pipeline:
load model → load class names → decode image → preprocess → infer →
rank → print.  We model

* model scores as rationals (`ℚ`), an idealisation of the script's
  floating-point values;
* each fallible pipeline stage as an `Except String` field of an
  environment record `Env` (the `String` is the stringified Python
  exception message);
* the produced standard output as a `List String` of lines;
* Python's `f"{x:.1f}"` formatting as `fix1`, rounding half-up (Python
  rounds the underlying binary float to nearest; exact ties never arise
  for binary floats at one decimal, so the tie-breaking direction is
  immaterial to the claims);
* `np.argsort` as a stable ascending sort of the index list by score
  (NumPy's default sort is unspecified on ties; for the small arrays of
  the counterexamples NumPy's insertion sort is likewise stable).
-/

/-- The character for a single decimal digit `n < 10`. -/
def digitChar (n : Nat) : Char := Char.ofNat (48 + n)

/-- Fuel-driven decimal digit expansion (most significant digit first). -/
def natReprAux (fuel : Nat) (n : Nat) : List Char :=
  match fuel with
  | 0 => []
  | fuel + 1 =>
    if n < 10 then [digitChar n]
    else natReprAux fuel (n / 10) ++ [digitChar (n % 10)]

/-- Decimal digit list of a natural number, as printed by Python. -/
def natRepr (n : Nat) : List Char := natReprAux (n + 1) n

/-- Decimal string of a natural number. -/
def natStr (n : Nat) : String := String.mk (natRepr n)

/-- Round `q` to the nearest integer, halves up: `⌊q + 1/2⌋`,
computed on the numerator/denominator so that it evaluates by `decide`.
Models the rounding performed by Python's `f"{x:.1f}"`. -/
def pyRound (q : ℚ) : ℤ := (2 * q.num + q.den).fdiv (2 * q.den)

/-- Python's `f"{x:.1f}"`: the value with exactly one digit after the
decimal point (source lines 40 and 46 format confidences this way). -/
def fix1 (q : ℚ) : String :=
  let n : ℤ := pyRound (10 * q)
  (if n < 0 then "-" else "") ++ natStr (n.natAbs / 10) ++ "." ++
    String.mk [digitChar (n.natAbs % 10)]

/-- `np.argmax(predictions)` (source line 35): index of the first
occurrence of the maximal entry; `0` on the empty list (NumPy raises
there, handled separately in `predict_image`). -/
def argmaxIdx : List ℚ → Nat
  | [] => 0
  | [_] => 0
  | x :: y :: rest =>
    if x < (y :: rest).getD (argmaxIdx (y :: rest)) 0 then
      argmaxIdx (y :: rest) + 1
    else 0

/-- `np.argsort(predictions)` (source line 44): the indices
`0, …, n-1` sorted in ascending order of score, stably. -/
def argsort (l : List ℚ) : List Nat :=
  List.insertionSort (fun i j => l.getD i 0 ≤ l.getD j 0) (List.range l.length)

/-- `np.argsort(predictions)[-5:][::-1]` (source line 44): the last
(at most) five entries of the ascending argsort, reversed, i.e. the
indices of the top-5 scores in descending order. -/
def topIndices (l : List ℚ) : List Nat :=
  ((argsort l).drop (l.length - 5)).reverse

/-- The percentage values the script prints: `predictions[top_idx]*100`
(source line 37) followed by `predictions[idx]*100` for each ranked
index (source line 46). -/
def printedPercents (l : List ℚ) : List ℚ :=
  l.getD (argmaxIdx l) 0 * 100 :: (topIndices l).map (fun i => l.getD i 0 * 100)

/-- The loop of source lines 45–46: print
`f"{i}. {class_names[idx]}: {predictions[idx]*100:.1f}%"` for each
ranked index, rank starting at `i`.  Returns the lines printed and
`some msg` when a label lookup raises `IndexError` (Python's
`list index out of range`), cutting the loop short. -/
def rankedLoop (class_names : List String) (predictions : List ℚ) :
    List Nat → Nat → List String × Option String
  | [], _ => ([], none)
  | idx :: rest, i =>
    if h : idx < class_names.length then
      ((natStr i ++ ". " ++ class_names.get ⟨idx, h⟩ ++ ": " ++
          fix1 (predictions.getD idx 0 * 100) ++ "%") ::
        (rankedLoop class_names predictions rest (i + 1)).1,
       (rankedLoop class_names predictions rest (i + 1)).2)
    else ([], some "list index out of range")

/-- The fallible stages of one invocation's pipeline, each modelled as
the stage's outcome: `Except.error msg` is a raised exception with
stringification `msg`.  `imgDecode = false` models `cv2.imread`
returning `None` (missing or undecodable image file). -/
structure Env where
  modelLoad : Except String Unit
  labelLoad : Except String (List String)
  imgDecode : Bool
  preprocess : Except String Unit
  infer : Except String (List ℚ)

/-- Outcome of `predict_image`: `exited lines code` for an explicit
`sys.exit(code)` after printing `lines` (not caught by the
`except Exception` handler), `ok lines` for normal completion, and
`raised lines msg` for an exception escaping after printing `lines`. -/
inductive PredictResult where
  | exited : List String → Nat → PredictResult
  | ok : List String → PredictResult
  | raised : List String → String → PredictResult
deriving DecidableEq, Repr

/-- `predict_image` (source lines 7–46): load model, load class names,
decode the image, preprocess, infer, then print the top prediction and
the top-5 list. -/
def predict_image (env : Env) : PredictResult :=
  match env.modelLoad with
  | .error e => .raised [] e
  | .ok _ =>
  match env.labelLoad with
  | .error e => .raised [] e
  | .ok class_names =>
  match env.imgDecode with
  | false => .exited ["Error: Could not read image"] 1
  | true =>
  match env.preprocess with
  | .error e => .raised [] e
  | .ok _ =>
  match env.infer with
  | .error e => .raised [] e
  | .ok predictions =>
  if predictions.isEmpty then
    .raised [] "attempt to get argmax of an empty sequence"
  else
    let top_idx := argmaxIdx predictions
    if htop : top_idx < class_names.length then
      let top_class := class_names.get ⟨top_idx, htop⟩
      let top_confidence := predictions.getD top_idx 0 * 100
      let line1 := "Top prediction: " ++ top_class ++ " (" ++
        fix1 top_confidence ++ "%)"
      let r := rankedLoop class_names predictions (topIndices predictions) 1
      match r.2 with
      | none => .ok (line1 :: "All predictions:" :: r.1)
      | some e => .raised (line1 :: "All predictions:" :: r.1) e
    else .raised [] "list index out of range"

/-- The `if __name__ == '__main__'` block (source lines 48–57): check
the argument count, run `predict_image`, catch any `Exception` as
`Error: <text>` with exit code 1.  Returns (stdout lines, exit code);
exit code `0` on normal completion. -/
def mainBlock (argv : List String) (env : Env) : List String × Nat :=
  if argv.length < 2 then (["Error: No image path provided"], 1)
  else
    match predict_image env with
    | .ok lines => (lines, 0)
    | .exited lines c => (lines, c)
    | .raised lines e => (lines ++ ["Error: " ++ e], 1)

/-- The lines a `PredictResult` printed to standard output. -/
def outputLines : PredictResult → List String
  | .exited ls _ => ls
  | .ok ls => ls
  | .raised ls _ => ls

/-- `true` exactly on normal completion. -/
def isOk : PredictResult → Bool
  | .ok _ => true
  | _ => false

/-!
## Specification-side predicates

The following predicates transcribe the wording of the specification
(its standard-output contract and its testable properties), to be
compared against the embedded program.
-/

/-- Spec: a percentage "formatted to exactly one decimal place": the
string ends in `'.'` followed by a single digit, and contains no other
`'.'`. -/
def oneDecimalPlace (s : String) : Prop :=
  ∃ pre d, s.data = pre ++ ['.', d] ∧ d.isDigit = true ∧ '.' ∉ pre

/-- Spec output contract, line 1: matches
`Top prediction: <label> (<percentage>%)`. -/
def isTopLine (s : String) : Prop :=
  ∃ label pct, s = "Top prediction: " ++ label ++ " (" ++ pct ++ "%)" ∧
    oneDecimalPlace pct

/-- Spec output contract, lines 3–7: matches
`<rank>. <label>: <percentage>%`. -/
def isRankLine (k : Nat) (s : String) : Prop :=
  ∃ label pct, s = natStr k ++ ". " ++ label ++ ": " ++ pct ++ "%" ∧
    oneDecimalPlace pct

/-- Spec output contract: exactly seven lines — the top-prediction
line, the literal header, and ranked lines for ranks 1–5. -/
def fullReportShape (lines : List String) : Prop :=
  lines.length = 7 ∧ isTopLine (lines.getD 0 "") ∧
  lines.getD 1 "" = "All predictions:" ∧
  ∀ k < 5, isRankLine (k + 1) (lines.getD (k + 2) "")

/-- Spec: on every successful run of this environment, the label and
rounded percentage of the `Top prediction:` line coincide with those of
the rank-1 entry of the top-5 list. -/
def topMatchesRankOne (env : Env) : Prop :=
  ∀ lines, predict_image env = .ok lines →
    ∃ label pct rest,
      lines = ("Top prediction: " ++ label ++ " (" ++ pct ++ "%)") ::
        "All predictions:" ::
        (natStr 1 ++ ". " ++ label ++ ": " ++ pct ++ "%") :: rest

/-- The maximal score is attained at exactly one index (no ties for
the top). -/
def uniqueMax (l : List ℚ) : Prop :=
  ∀ i < l.length, i ≠ argmaxIdx l → l.getD i 0 < l.getD (argmaxIdx l) 0

/-- Spec: the top-5 selection consists of (at most) five distinct
positions whose scores are in non-increasing order and dominate every
non-selected score. -/
def topFiveSpec (l : List ℚ) : Prop :=
  ((topIndices l).map fun i => l.getD i 0).Sorted (· ≥ ·) ∧
  (topIndices l).length = min 5 l.length ∧
  (topIndices l).Nodup ∧
  ∀ j < l.length, j ∉ topIndices l → ∀ i ∈ topIndices l,
    l.getD j 0 ≤ l.getD i 0

/-- Spec: every printed percentage value lies within `[0, 100]`. -/
def percentsInRange (l : List ℚ) : Prop :=
  ∀ q ∈ printedPercents l, 0 ≤ q ∧ q ≤ 100

/-- Spec: every printed percentage is formatted to one decimal place. -/
def percentsOneDecimal (l : List ℚ) : Prop :=
  ∀ q ∈ printedPercents l, oneDecimalPlace (fix1 q)

/-- Spec: every index used to look up a label is in `[0, N)`. -/
def labelLookupsInRange (class_names : List String) (l : List ℚ) : Prop :=
  argmaxIdx l < class_names.length ∧
  ∀ i ∈ topIndices l, i < class_names.length

/-- The label table is at least as long as the prediction vector
(vacuously true when either stage fails). -/
def labelsCoverPredictions (env : Env) : Prop :=
  match env.labelLoad, env.infer with
  | .ok class_names, .ok predictions =>
    predictions.length ≤ class_names.length
  | _, _ => True

/-- Spec: the run printed nothing apart from a single error line
(which starts with `Error: `) and exited with code 1. -/
def errorLineOnly (out : List String × Nat) : Prop :=
  out.2 = 1 ∧ out.1.length = 1 ∧
  (out.1.getD 0 "").data.take 7 = "Error: ".data

/-- Spec: either the full report prints (exit code 0) or nothing does
apart from the error line — never a partial report. -/
def reportsAtomically (out : List String × Nat) (res : PredictResult) : Prop :=
  (out.2 = 0 ∧ res = .ok out.1) ∨ errorLineOnly out

instance (l : List ℚ) : Decidable (uniqueMax l) := by
  unfold uniqueMax; exact inferInstance

instance (env : Env) : Decidable (labelsCoverPredictions env) := by
  unfold labelsCoverPredictions
  rcases env.labelLoad with e | cn <;> rcases env.infer with e2 | pr <;>
    exact inferInstance

instance (out : List String × Nat) : Decidable (errorLineOnly out) := by
  unfold errorLineOnly; exact inferInstance

instance (out : List String × Nat) (res : PredictResult) :
    Decidable (reportsAtomically out res) := by
  unfold reportsAtomically; exact inferInstance

instance (l : List ℚ) : Decidable (percentsInRange l) := by
  unfold percentsInRange; exact inferInstance

/-! ## String and digit lemmas -/

theorem data_append (a b : String) : (a ++ b).data = a.data ++ b.data := rfl

theorem digitChar_isDigit {n : Nat} (h : n < 10) : (digitChar n).isDigit = true := by
  interval_cases n <;> decide

theorem natReprAux_digit {f : Nat} : ∀ {n c}, c ∈ natReprAux f n → c.isDigit = true := by
  induction f with
  | zero => intro n c hc; simp [natReprAux] at hc
  | succ f ih =>
    intro n c hc
    unfold natReprAux at hc
    by_cases h : n < 10
    · rw [if_pos h] at hc
      rw [List.mem_singleton] at hc
      subst hc
      exact digitChar_isDigit h
    · rw [if_neg h] at hc
      rcases List.mem_append.mp hc with h1 | h1
      · exact ih h1
      · rw [List.mem_singleton] at h1
        subst h1
        exact digitChar_isDigit (Nat.mod_lt _ (by omega))

theorem natRepr_digit {n : Nat} {c : Char} (hc : c ∈ natRepr n) : c.isDigit = true :=
  natReprAux_digit hc

theorem natRepr_ne_nil (n : Nat) : natRepr n ≠ [] := by
  unfold natRepr natReprAux
  by_cases h : n < 10 <;> simp [h]

theorem fix1_oneDecimalPlace (q : ℚ) : oneDecimalPlace (fix1 q) := by
  unfold fix1 oneDecimalPlace
  refine ⟨(if pyRound (10 * q) < 0 then "-" else "").data ++
    natRepr ((pyRound (10 * q)).natAbs / 10),
    digitChar ((pyRound (10 * q)).natAbs % 10), ?_, ?_, ?_⟩
  · simp [data_append, natStr, List.append_assoc]
  · exact digitChar_isDigit (Nat.mod_lt _ (by omega))
  · intro hdot
    rcases List.mem_append.mp hdot with h1 | h1
    · by_cases h0 : pyRound (10 * q) < 0 <;> simp [h0] at h1
    · exact absurd (natRepr_digit h1) (by decide)

/-! ## Lemmas about `argmaxIdx` -/

theorem argmaxIdx_lt_length : ∀ (l : List ℚ), l ≠ [] → argmaxIdx l < l.length := by
  intro l
  induction l with
  | nil => intro h; exact absurd rfl h
  | cons x xs ih =>
    intro _
    cases xs with
    | nil => simp [argmaxIdx]
    | cons y rest =>
      show (if x < (y :: rest).getD (argmaxIdx (y :: rest)) 0 then
        argmaxIdx (y :: rest) + 1 else 0) < _
      split
      · have h := ih (by simp)
        simp only [List.length_cons] at h ⊢
        omega
      · simp

theorem getD_argmaxIdx_max : ∀ (l : List ℚ) (i : Nat), i < l.length →
    l.getD i 0 ≤ l.getD (argmaxIdx l) 0 := by
  intro l
  induction l with
  | nil => intro i h; simp at h
  | cons x xs ih =>
    intro i hi
    cases xs with
    | nil =>
      have h0 : i = 0 := by simp at hi; omega
      subst h0
      simp [argmaxIdx]
    | cons y rest =>
      have hunf : argmaxIdx (x :: y :: rest) =
          if x < (y :: rest).getD (argmaxIdx (y :: rest)) 0 then
            argmaxIdx (y :: rest) + 1 else 0 := rfl
      rw [hunf]
      by_cases hx : x < (y :: rest).getD (argmaxIdx (y :: rest)) 0
      · rw [if_pos hx, List.getD_cons_succ]
        cases i with
        | zero => rw [List.getD_cons_zero]; exact le_of_lt hx
        | succ j => rw [List.getD_cons_succ]; exact ih j (by simpa using hi)
      · rw [if_neg hx]
        push_neg at hx
        rw [List.getD_cons_zero]
        cases i with
        | zero => rw [List.getD_cons_zero]
        | succ j =>
          rw [List.getD_cons_succ]
          exact le_trans (ih j (by simpa using hi)) hx

/-! ## Lemmas about `argsort` and `topIndices` -/

theorem argsort_sorted (l : List ℚ) :
    List.Sorted (fun i j => l.getD i 0 ≤ l.getD j 0) (argsort l) := by
  haveI : IsTotal Nat (fun i j => l.getD i 0 ≤ l.getD j 0) :=
    ⟨fun a b => le_total _ _⟩
  haveI : IsTrans Nat (fun i j => l.getD i 0 ≤ l.getD j 0) :=
    ⟨fun a b c h1 h2 => le_trans h1 h2⟩
  exact List.sorted_insertionSort _ _

theorem argsort_perm (l : List ℚ) : (argsort l).Perm (List.range l.length) :=
  List.perm_insertionSort _ _

theorem mem_argsort {l : List ℚ} {i : Nat} : i ∈ argsort l ↔ i < l.length := by
  rw [(argsort_perm l).mem_iff, List.mem_range]

theorem argsort_length (l : List ℚ) : (argsort l).length = l.length := by
  rw [(argsort_perm l).length_eq, List.length_range]

theorem argsort_nodup (l : List ℚ) : (argsort l).Nodup :=
  ((argsort_perm l).nodup_iff).mpr (List.nodup_range _)

theorem topIndices_length (l : List ℚ) : (topIndices l).length = min 5 l.length := by
  unfold topIndices
  rw [List.length_reverse, List.length_drop, argsort_length]
  omega

theorem mem_topIndices {l : List ℚ} {i : Nat} (h : i ∈ topIndices l) :
    i < l.length := by
  unfold topIndices at h
  rw [List.mem_reverse] at h
  exact mem_argsort.mp (List.mem_of_mem_drop h)

theorem topIndices_nodup (l : List ℚ) : (topIndices l).Nodup := by
  unfold topIndices
  rw [List.nodup_reverse]
  exact List.Nodup.sublist (List.drop_sublist _ _) (argsort_nodup l)

theorem topIndices_sorted (l : List ℚ) :
    (topIndices l).Pairwise (fun i j => l.getD j 0 ≤ l.getD i 0) := by
  unfold topIndices
  rw [List.pairwise_reverse]
  exact List.Pairwise.sublist (List.drop_sublist _ _) (argsort_sorted l)

theorem topIndices_dominate {l : List ℚ} {j : Nat} (hj : j < l.length)
    (hnot : j ∉ topIndices l) : ∀ i ∈ topIndices l, l.getD j 0 ≤ l.getD i 0 := by
  intro i hi
  have hjA : j ∈ argsort l := mem_argsort.mpr hj
  have hjtake : j ∈ (argsort l).take (l.length - 5) := by
    rcases List.mem_append.mp
        ((List.take_append_drop (l.length - 5) (argsort l)).symm ▸ hjA) with h | h
    · exact h
    · refine absurd ?_ hnot
      unfold topIndices
      rw [List.mem_reverse]
      exact h
  have hidrop : i ∈ (argsort l).drop (l.length - 5) := by
    have h := hi
    unfold topIndices at h
    rwa [List.mem_reverse] at h
  have hpw := argsort_sorted l
  rw [← List.take_append_drop (l.length - 5) (argsort l)] at hpw
  obtain ⟨-, -, hcross⟩ := List.pairwise_append.mp hpw
  exact hcross j hjtake i hidrop

/-! ## Lemmas about `rankedLoop` -/

theorem rankedLoop_sec_none (class_names : List String) (predictions : List ℚ) :
    ∀ (idxs : List Nat) (i : Nat), (∀ j ∈ idxs, j < class_names.length) →
      (rankedLoop class_names predictions idxs i).2 = none := by
  intro idxs
  induction idxs with
  | nil => intro i h; rfl
  | cons a rest ih =>
    intro i h
    unfold rankedLoop
    rw [dif_pos (h a (by simp))]
    exact ih (i + 1) (fun j hj => h j (by simp [hj]))

theorem rankedLoop_none_inv (class_names : List String) (predictions : List ℚ) :
    ∀ (idxs : List Nat) (i : Nat),
      (rankedLoop class_names predictions idxs i).2 = none →
      (∀ j ∈ idxs, j < class_names.length) ∧
      (rankedLoop class_names predictions idxs i).1.length = idxs.length ∧
      ∀ k < idxs.length,
        isRankLine (i + k) ((rankedLoop class_names predictions idxs i).1.getD k "") := by
  intro idxs
  induction idxs with
  | nil =>
    intro i h
    exact ⟨by simp, rfl, by intro k hk; simp at hk⟩
  | cons a rest ih =>
    intro i h
    by_cases ha : a < class_names.length
    · unfold rankedLoop at h ⊢
      rw [dif_pos ha] at h ⊢
      obtain ⟨hall, hlen, hlines⟩ := ih (i + 1) h
      refine ⟨?_, ?_, ?_⟩
      · intro j hj
        rcases List.mem_cons.mp hj with rfl | hj'
        · exact ha
        · exact hall j hj'
      · simp [hlen]
      · intro k hk
        cases k with
        | zero =>
          refine ⟨class_names.get ⟨a, ha⟩,
            fix1 (predictions.getD a 0 * 100), by simp, fix1_oneDecimalPlace _⟩
        | succ k' =>
          have hr := hlines k' (by simpa using hk)
          have harith : i + 1 + k' = i + (k' + 1) := by omega
          rw [harith] at hr
          simpa using hr
    · unfold rankedLoop at h
      rw [dif_neg ha] at h
      simp at h

/-! ## Lemmas about `predict_image` -/

theorem predict_image_ok_inv {env : Env} {lines : List String}
    (h : predict_image env = .ok lines) :
    ∃ (class_names : List String) (pr : List ℚ)
      (htop : argmaxIdx pr < class_names.length),
      env.labelLoad = .ok class_names ∧ env.infer = .ok pr ∧ pr ≠ [] ∧
      (rankedLoop class_names pr (topIndices pr) 1).2 = none ∧
      lines = ("Top prediction: " ++ class_names.get ⟨argmaxIdx pr, htop⟩ ++
          " (" ++ fix1 (pr.getD (argmaxIdx pr) 0 * 100) ++ "%)") ::
        "All predictions:" :: (rankedLoop class_names pr (topIndices pr) 1).1 := by
  obtain ⟨ml, ll, dec, pp, inf⟩ := env
  rcases ml with e | u
  · simp [predict_image] at h
  rcases ll with e | class_names
  · simp [predict_image] at h
  rcases dec
  · simp [predict_image] at h
  rcases pp with e | v
  · simp [predict_image] at h
  rcases inf with e | pr
  · simp [predict_image] at h
  simp only [predict_image] at h
  by_cases hne : pr.isEmpty
  · rw [if_pos hne] at h
    simp at h
  rw [if_neg hne] at h
  by_cases htop : argmaxIdx pr < class_names.length
  · rw [dif_pos htop] at h
    rcases hr : (rankedLoop class_names pr (topIndices pr) 1).2 with _ | e <;>
      rw [hr] at h
    · refine ⟨class_names, pr, htop, rfl, rfl,
        by simpa [List.isEmpty_iff] using hne, hr, ?_⟩
      injection h with h'
      exact h'.symm
    · simp at h
  · rw [dif_neg htop] at h
    simp at h

theorem predict_image_ok_of {env : Env} (class_names : List String) (pr : List ℚ)
    (hml : env.modelLoad = .ok ()) (hll : env.labelLoad = .ok class_names)
    (hdec : env.imgDecode = true) (hpp : env.preprocess = .ok ())
    (hinf : env.infer = .ok pr) (hne : pr ≠ [])
    (hcov : pr.length ≤ class_names.length) :
    isOk (predict_image env) = true ∧
    (outputLines (predict_image env)).length = 2 + min 5 pr.length := by
  obtain ⟨ml, ll, dec, pp, inf⟩ := env
  simp only at hml hll hdec hpp hinf
  subst hml hll hdec hpp hinf
  simp only [predict_image]
  rw [if_neg (by simpa [List.isEmpty_iff] using hne)]
  have htop : argmaxIdx pr < class_names.length :=
    lt_of_lt_of_le (argmaxIdx_lt_length pr hne) hcov
  rw [dif_pos htop]
  have hall : ∀ j ∈ topIndices pr, j < class_names.length :=
    fun j hj => lt_of_lt_of_le (mem_topIndices hj) hcov
  have hnone := rankedLoop_sec_none class_names pr (topIndices pr) 1 hall
  rw [hnone]
  obtain ⟨-, hlen, -⟩ := rankedLoop_none_inv class_names pr (topIndices pr) 1 hnone
  refine ⟨rfl, ?_⟩
  simp only [outputLines, List.length_cons, hlen, topIndices_length]
  omega

/-! ## Claims -/

/-- C5: when the label table has length N and the prediction vector
also has length N (and the vector is nonempty, as required for the
ranking code to run at all), the argmax index and every argsort-selected
index lie in `[0, N)`, so no label lookup is out of bounds. -/
theorem c5_label_lookups_in_range (class_names : List String) (l : List ℚ)
    (hlen : class_names.length = l.length) (hne : l ≠ []) :
    labelLookupsInRange class_names l := by
  constructor
  · rw [hlen]
    exact argmaxIdx_lt_length l hne
  · intro i hi
    rw [hlen]
    exact mem_topIndices hi

/-- Witness for C5 at a concrete input. -/
theorem c5_label_lookups_in_range_witness :
    (["a"] : List String).length = [(1 : ℚ)].length ∧ [(1 : ℚ)] ≠ [] ∧
    labelLookupsInRange ["a"] [1] :=
  ⟨by decide, by decide,
    c5_label_lookups_in_range ["a"] [1] (by decide) (by decide)⟩

/-- C6: for every prediction vector, the top-5 selection consists of
distinct in-range positions, of count `min 5 N`, whose scores are in
non-increasing order and are the largest entries of the vector (every
non-selected score is bounded by every selected one). -/
theorem c6_top_five_selection (l : List ℚ) : topFiveSpec l := by
  refine ⟨?_, topIndices_length l, topIndices_nodup l,
    fun j hj hnot => topIndices_dominate hj hnot⟩
  show ((topIndices l).map fun i => l.getD i 0).Pairwise (· ≥ ·)
  rw [List.pairwise_map]
  exact topIndices_sorted l

/-- C7: with no image-path argument (fewer than two entries in
`sys.argv`), the program prints exactly `Error: No image path provided`
and exits with code 1. -/
theorem c7_missing_argument (argv : List String) (env : Env)
    (h : argv.length < 2) :
    mainBlock argv env = (["Error: No image path provided"], 1) := by
  unfold mainBlock
  rw [if_pos h]

/-- Witness for C7 at a concrete input. -/
theorem c7_missing_argument_witness :
    ([("prog" : String)].length < 2) ∧
    mainBlock ["prog"] ⟨.ok (), .ok ["a"], true, .ok (), .ok [1]⟩ =
      (["Error: No image path provided"], 1) :=
  ⟨by decide, c7_missing_argument ["prog"]
    ⟨.ok (), .ok ["a"], true, .ok (), .ok [1]⟩ (by decide)⟩

/-- C8: when the model and label file load and the image cannot be read
(`cv2.imread` returns `None`), the program prints exactly the dedicated
message `Error: Could not read image` and exits with code 1 (via
`sys.exit`, not via the generic exception handler). -/
theorem c8_unreadable_image (argv : List String) (env : Env)
    (class_names : List String) (hargs : 2 ≤ argv.length)
    (hml : env.modelLoad = .ok ()) (hll : env.labelLoad = .ok class_names)
    (hdec : env.imgDecode = false) :
    mainBlock argv env = (["Error: Could not read image"], 1) := by
  obtain ⟨ml, ll, dec, pp, inf⟩ := env
  simp only at hml hll hdec
  subst hml hll hdec
  unfold mainBlock
  rw [if_neg (by omega)]
  simp [predict_image]

/-- Witness for C8 at a concrete input. -/
theorem c8_unreadable_image_witness :
    2 ≤ ([("prog" : String), "img.jpg"]).length ∧
    mainBlock ["prog", "img.jpg"] ⟨.ok (), .ok ["a"], false, .ok (), .ok [1]⟩ =
      (["Error: Could not read image"], 1) :=
  ⟨by decide, c8_unreadable_image ["prog", "img.jpg"]
    ⟨.ok (), .ok ["a"], false, .ok (), .ok [1]⟩ ["a"] (by decide) rfl rfl rfl⟩

/-- C9: whenever the pipeline raises an exception (any failure other
than image-decode failure and the missing-argument check), the
top-level handler appends the line `Error: <text>` with the stringified
exception and the program exits with code 1. -/
theorem c9_generic_handler (argv : List String) (env : Env)
    (ls : List String) (e : String) (hargs : 2 ≤ argv.length)
    (hr : predict_image env = .raised ls e) :
    mainBlock argv env = (ls ++ ["Error: " ++ e], 1) := by
  unfold mainBlock
  rw [if_neg (by omega), hr]

/-- Witness for C9 at a concrete input (model loading fails). -/
theorem c9_generic_handler_witness :
    2 ≤ ([("prog" : String), "img.jpg"]).length ∧
    predict_image ⟨.error "model missing", .ok ["a"], true, .ok (), .ok [1]⟩ =
      .raised [] "model missing" ∧
    mainBlock ["prog", "img.jpg"]
        ⟨.error "model missing", .ok ["a"], true, .ok (), .ok [1]⟩ =
      (["Error: model missing"], 1) :=
  ⟨by decide, by decide,
    c9_generic_handler ["prog", "img.jpg"]
      ⟨.error "model missing", .ok ["a"], true, .ok (), .ok [1]⟩
      [] "model missing" (by decide) (by decide)⟩

/-- C10: on a successful run whose prediction vector has N < 5 entries,
the output has `2 + N` lines (only N ranked lines), which is fewer than
the seven lines of the full contract. -/
theorem c10_short_vector (env : Env) (class_names : List String) (pr : List ℚ)
    (hml : env.modelLoad = .ok ()) (hll : env.labelLoad = .ok class_names)
    (hdec : env.imgDecode = true) (hpp : env.preprocess = .ok ())
    (hinf : env.infer = .ok pr) (hne : pr ≠ [])
    (hcov : pr.length ≤ class_names.length) (h5 : pr.length < 5) :
    isOk (predict_image env) = true ∧
    (outputLines (predict_image env)).length = 2 + pr.length ∧
    (outputLines (predict_image env)).length < 7 := by
  obtain ⟨hok, hlen⟩ :=
    predict_image_ok_of class_names pr hml hll hdec hpp hinf hne hcov
  have hmin : min 5 pr.length = pr.length := by omega
  rw [hmin] at hlen
  exact ⟨hok, hlen, by omega⟩

unseal Rat.mul in
/-- Witness for C10 at a concrete input (a single-class model). -/
theorem c10_short_vector_witness :
    isOk (predict_image ⟨.ok (), .ok ["a"], true, .ok (), .ok [1]⟩) = true ∧
    (outputLines (predict_image ⟨.ok (), .ok ["a"], true, .ok (), .ok [1]⟩)).length =
      2 + [(1 : ℚ)].length ∧
    (outputLines (predict_image ⟨.ok (), .ok ["a"], true, .ok (), .ok [1]⟩)).length < 7 :=
  c10_short_vector ⟨.ok (), .ok ["a"], true, .ok (), .ok [1]⟩ ["a"] [1]
    rfl rfl rfl rfl rfl (by decide) (by decide) (by decide)

/-- C4 (amended): for every run, regardless of the model's output
values, every printed percentage is formatted with exactly one digit
after the decimal point; and when every model output score lies in
`[0, 1]`, every printed percentage value lies in `[0, 100]`. -/
theorem c4_percent_range_and_format (l : List ℚ) :
    percentsOneDecimal l ∧
    ((∀ p ∈ l, 0 ≤ p ∧ p ≤ 1) → percentsInRange l) := by
  constructor
  · intro q hq
    exact fix1_oneDecimalPlace q
  · intro hprob
    have hx : ∀ idx : Nat, 0 ≤ l.getD idx 0 ∧ l.getD idx 0 ≤ 1 := by
      intro idx
      by_cases hidx : idx < l.length
      · rw [List.getD_eq_getElem l 0 hidx]
        exact hprob _ (List.getElem_mem hidx)
      · rw [List.getD_eq_default l 0 (by omega)]
        norm_num
    intro q hq
    have hq100 : ∃ idx : Nat, q = l.getD idx 0 * 100 := by
      unfold printedPercents at hq
      rcases List.mem_cons.mp hq with rfl | hq'
      · exact ⟨argmaxIdx l, rfl⟩
      · obtain ⟨i, hi, rfl⟩ := List.mem_map.mp hq'
        exact ⟨i, rfl⟩
    obtain ⟨idx, rfl⟩ := hq100
    obtain ⟨h0, h1⟩ := hx idx
    constructor
    · exact mul_nonneg h0 (by norm_num)
    · nlinarith

/-- Witness for C4 (amended) at a concrete input: the formatting part
taken directly, the range part with its score-bound hypothesis
discharged. -/
theorem c4_percent_range_and_format_witness :
    percentsOneDecimal [(1 : ℚ), 0] ∧ percentsInRange [(1 : ℚ), 0] :=
  ⟨(c4_percent_range_and_format [1, 0]).1,
    (c4_percent_range_and_format [1, 0]).2 (by decide)⟩

unseal Rat.mul in
/-- C4 counterexample: the code applies no clamping, so a model score
of 2 is printed as `200.0%`, outside `[0, 100]` — the claim fails for
arbitrary model output values. -/
theorem c4_counterexample :
    predict_image ⟨.ok (), .ok ["a"], true, .ok (), .ok [2]⟩ =
      .ok ["Top prediction: a (200.0%)", "All predictions:", "1. a: 200.0%"] ∧
    ¬ percentsInRange [(2 : ℚ)] := by
  constructor
  · decide
  · decide

/-- C2 (amended): on every successful run whose prediction vector has
at least five entries, standard output is exactly seven lines: the
top-prediction line, the literal header `All predictions:`, and ranked
lines for ranks 1 through 5. -/
theorem c2_seven_line_output (env : Env) (pr : List ℚ) (lines : List String)
    (hinf : env.infer = .ok pr) (h5 : 5 ≤ pr.length)
    (hok : predict_image env = .ok lines) :
    fullReportShape lines := by
  obtain ⟨class_names, pr', htop, hll, hinf', hne, hnone, hlines⟩ :=
    predict_image_ok_inv hok
  rw [hinf] at hinf'
  injection hinf' with hpr
  subst hpr
  obtain ⟨hall, hlen, hrank⟩ :=
    rankedLoop_none_inv class_names pr (topIndices pr) 1 hnone
  have htlen : (topIndices pr).length = 5 := by
    rw [topIndices_length]
    omega
  subst hlines
  refine ⟨?_, ?_, rfl, ?_⟩
  · simp only [List.length_cons, hlen, htlen]
  · exact ⟨class_names.get ⟨argmaxIdx pr, htop⟩,
      fix1 (pr.getD (argmaxIdx pr) 0 * 100), rfl, fix1_oneDecimalPlace _⟩
  · intro k hk
    have hr := hrank k (by rw [htlen]; omega)
    rw [Nat.add_comm 1 k] at hr
    exact hr

unseal Rat.mul in
/-- Witness for C2 (amended) at a concrete input with five classes. -/
theorem c2_seven_line_output_witness :
    5 ≤ [(5 : ℚ), 4, 3, 2, 1].length ∧
    fullReportShape ["Top prediction: a (500.0%)", "All predictions:",
      "1. a: 500.0%", "2. b: 400.0%", "3. c: 300.0%", "4. d: 200.0%",
      "5. e: 100.0%"] :=
  ⟨by decide,
    c2_seven_line_output
      ⟨.ok (), .ok ["a", "b", "c", "d", "e"], true, .ok (), .ok [5, 4, 3, 2, 1]⟩
      [5, 4, 3, 2, 1]
      ["Top prediction: a (500.0%)", "All predictions:", "1. a: 500.0%",
        "2. b: 400.0%", "3. c: 300.0%", "4. d: 200.0%", "5. e: 100.0%"]
      rfl (by decide) (by decide)⟩

unseal Rat.mul in
/-- C2 counterexample: a successful run with a single-class model
prints three lines, not seven, so the seven-line contract fails for
successful runs in general. -/
theorem c2_counterexample :
    predict_image ⟨.ok (), .ok ["a"], true, .ok (), .ok [1]⟩ =
      .ok ["Top prediction: a (100.0%)", "All predictions:", "1. a: 100.0%"] ∧
    ¬ fullReportShape
      ["Top prediction: a (100.0%)", "All predictions:", "1. a: 100.0%"] :=
  ⟨by decide, fun h => absurd h.1 (by decide)⟩

/-- C1 (amended): on every run whose prediction vector attains its
maximum at a unique index, the label and rounded percentage of the
`Top prediction:` line equal those of rank 1 of the top-5 list.  (With
ties, the argmax picks the first maximal index while the sort may rank
a different maximal index first, so only the percentages agree.) -/
theorem c1_top_matches_rank_one (env : Env) (pr : List ℚ)
    (hinf : env.infer = .ok pr) (huniq : uniqueMax pr) :
    topMatchesRankOne env := by
  intro lines hok
  obtain ⟨class_names, pr', htop, hll, hinf', hne, hnone, hlines⟩ :=
    predict_image_ok_inv hok
  rw [hinf] at hinf'
  injection hinf' with hpr
  subst hpr
  have hlen : (topIndices pr).length = min 5 pr.length := topIndices_length pr
  have hnpos : 0 < pr.length := by
    cases pr
    · exact absurd rfl hne
    · simp
  cases hT : topIndices pr with
  | nil =>
    rw [hT] at hlen
    simp at hlen
    omega
  | cons j rest =>
    have hjmem : j ∈ topIndices pr := by
      rw [hT]
      exact List.mem_cons_self _ _
    have hjlt : j < pr.length := mem_topIndices hjmem
    have hmax : ∀ i, i < pr.length → pr.getD i 0 ≤ pr.getD j 0 := by
      intro i hi
      by_cases hitop : i ∈ topIndices pr
      · rw [hT] at hitop
        rcases List.mem_cons.mp hitop with rfl | htail
        · exact le_refl _
        · have hpw := topIndices_sorted pr
          rw [hT] at hpw
          exact (List.pairwise_cons.mp hpw).1 i htail
      · exact topIndices_dominate hi hitop j hjmem
    have hj_eq : j = argmaxIdx pr := by
      by_contra hne'
      have h1 : pr.getD j 0 < pr.getD (argmaxIdx pr) 0 := huniq j hjlt hne'
      have h2 : pr.getD (argmaxIdx pr) 0 ≤ pr.getD j 0 :=
        hmax _ (argmaxIdx_lt_length pr hne)
      exact absurd (lt_of_lt_of_le h1 h2) (lt_irrefl _)
    subst hj_eq
    rw [hT] at hlines hnone
    unfold rankedLoop at hlines
    rw [dif_pos htop] at hlines
    exact ⟨class_names.get ⟨argmaxIdx pr, htop⟩,
      fix1 (pr.getD (argmaxIdx pr) 0 * 100),
      (rankedLoop class_names pr rest (1 + 1)).1, hlines⟩

unseal Rat.mul in
/-- Witness for C1 (amended) at a concrete input with a strict maximum. -/
theorem c1_top_matches_rank_one_witness :
    uniqueMax [(3 : ℚ), 1] ∧
    topMatchesRankOne ⟨.ok (), .ok ["a", "b"], true, .ok (), .ok [3, 1]⟩ :=
  ⟨by decide,
    c1_top_matches_rank_one ⟨.ok (), .ok ["a", "b"], true, .ok (), .ok [3, 1]⟩
      [3, 1] rfl (by decide)⟩

unseal Rat.mul in
/-- C1 counterexample: with two classes sharing the maximal score, the
argmax picks index 0 (label `a`) while the stable argsort ranks index 1
(label `b`) first, so the top line's label differs from rank 1's. -/
theorem c1_counterexample :
    ¬ topMatchesRankOne ⟨.ok (), .ok ["a", "b"], true, .ok (), .ok [1, 1]⟩ := by
  intro hcl
  have hrun : predict_image ⟨.ok (), .ok ["a", "b"], true, .ok (), .ok [1, 1]⟩ =
      .ok ["Top prediction: a (100.0%)", "All predictions:",
        "1. b: 100.0%", "2. a: 100.0%"] := by decide
  obtain ⟨label, pct, rest, heq⟩ := hcl _ hrun
  have h1 := congrArg (fun ls => ls.getD 0 "") heq
  have h3 := congrArg (fun ls => ls.getD 2 "") heq
  simp only [List.getD_cons_zero, List.getD_cons_succ] at h1 h3
  rw [show natStr 1 = "1" from by decide] at h3
  have hd1 := congrArg String.data h1
  have hd3 := congrArg String.data h3
  simp only [data_append, List.append_assoc] at hd1 hd3
  cases hlab : label.data with
  | nil =>
    rw [hlab] at hd1
    simp at hd1
  | cons c cs =>
    rw [hlab] at hd1 hd3
    simp at hd1 hd3
    exact absurd (hd1.1.trans hd3.1.symm) (by decide)

theorem take_seven_error (e : String) :
    ("Error: " ++ e).data.take 7 = "Error: ".data := by
  have h : ("Error: " : String).data.length = 7 := by decide
  rw [data_append, ← h, List.take_left]

/-- C3 (amended): on every run in which the label table is at least as
long as the prediction vector (in particular whenever both have the
model's class count N), either the full report is printed with exit
code 0, or nothing is printed apart from a single line starting with
`Error: ` and the exit code is 1 — never a partial report. -/
theorem c3_atomic_reporting (argv : List String) (env : Env)
    (hcov : labelsCoverPredictions env) :
    reportsAtomically (mainBlock argv env) (predict_image env) := by
  by_cases hargs : argv.length < 2
  · right
    unfold mainBlock
    rw [if_pos hargs]
    exact ⟨rfl, rfl, by decide⟩
  · obtain ⟨ml, ll, dec, pp, inf⟩ := env
    unfold labelsCoverPredictions at hcov
    rcases ml with e | ⟨⟩
    · right
      unfold mainBlock
      rw [if_neg hargs]
      simp only [predict_image]
      exact ⟨rfl, rfl, take_seven_error e⟩
    rcases ll with e | class_names
    · right
      unfold mainBlock
      rw [if_neg hargs]
      simp only [predict_image]
      exact ⟨rfl, rfl, take_seven_error e⟩
    rcases dec
    · right
      unfold mainBlock
      rw [if_neg hargs]
      simp only [predict_image]
      exact ⟨rfl, rfl, by decide⟩
    rcases pp with e | ⟨⟩
    · right
      unfold mainBlock
      rw [if_neg hargs]
      simp only [predict_image]
      exact ⟨rfl, rfl, take_seven_error e⟩
    rcases inf with e | pr
    · right
      unfold mainBlock
      rw [if_neg hargs]
      simp only [predict_image]
      exact ⟨rfl, rfl, take_seven_error e⟩
    simp only at hcov
    by_cases hne : pr = []
    · subst hne
      right
      unfold mainBlock
      rw [if_neg hargs]
      simp only [predict_image]
      exact ⟨rfl, rfl, take_seven_error _⟩
    · obtain ⟨hok, -⟩ :=
        @predict_image_ok_of ⟨.ok (), .ok class_names, true, .ok (), .ok pr⟩
          class_names pr rfl rfl rfl rfl rfl hne hcov
      rcases hpi : predict_image
          ⟨.ok (), .ok class_names, true, .ok (), .ok pr⟩ with
        ⟨ls, c⟩ | ls | ⟨ls, e⟩
      · rw [hpi] at hok
        simp [isOk] at hok
      · left
        unfold mainBlock
        rw [if_neg hargs, hpi]
        exact ⟨rfl, rfl⟩
      · rw [hpi] at hok
        simp [isOk] at hok

unseal Rat.mul in
/-- Witness for C3 (amended) at a concrete input. -/
theorem c3_atomic_reporting_witness :
    labelsCoverPredictions ⟨.ok (), .ok ["a", "b"], true, .ok (), .ok [1, 2]⟩ ∧
    reportsAtomically
      (mainBlock ["prog", "img.jpg"]
        ⟨.ok (), .ok ["a", "b"], true, .ok (), .ok [1, 2]⟩)
      (predict_image ⟨.ok (), .ok ["a", "b"], true, .ok (), .ok [1, 2]⟩) :=
  ⟨by decide,
    c3_atomic_reporting ["prog", "img.jpg"]
      ⟨.ok (), .ok ["a", "b"], true, .ok (), .ok [1, 2]⟩ (by decide)⟩

unseal Rat.mul in
/-- C3 counterexample: with a label table shorter than the prediction
vector, the run prints the top-prediction line, the header and one
ranked line, and only then fails — a partial report followed by the
error line, contradicting the claim. -/
theorem c3_counterexample :
    mainBlock ["prog", "img.jpg"] ⟨.ok (), .ok ["a"], true, .ok (), .ok [5, 3]⟩ =
      (["Top prediction: a (500.0%)", "All predictions:", "1. a: 500.0%",
        "Error: list index out of range"], 1) ∧
    ¬ reportsAtomically
      (mainBlock ["prog", "img.jpg"] ⟨.ok (), .ok ["a"], true, .ok (), .ok [5, 3]⟩)
      (predict_image ⟨.ok (), .ok ["a"], true, .ok (), .ok [5, 3]⟩) := by
  constructor
  · decide
  · decide
